import Mathlib

/-
Verification of the bulk-job coordinator of the Intercom integration
(lib/index.js). The coordinator, its key derivations, the trait/date
formatting helpers and the version-selection logic are embedded as
executable Lean definitions; external collaborators (the HTTP transport,
redis, the lock store) are modelled by an environment record giving the
outcome of each call, and the coordinator is interpreted as a function
from that environment to the list of issued effects plus the callback
outcome, following the callback structure of the source line by line.
-/

namespace IntercomSpec

/-- Source: JS Array.prototype.join with a separator string, as used in the
key-building expressions of lib/index.js. -/
def jsJoin (sep : String) : List String → String
  | [] => ""
  | [x] => x
  | x :: y :: xs => x ++ sep ++ jsJoin sep (y :: xs)

/-- Facade action of a message: identify, track or group. -/
inductive Action
  | identify
  | track
  | group
deriving DecidableEq, Repr

/-- The parts of a facade message the coordinator reads. -/
structure Msg where
  action : Action
  userId : Option String
  email : Option String
deriving DecidableEq, Repr

/-- Integration settings used by the coordinator. -/
structure Settings where
  appId : String
  isBulkAPIEnabled : Bool
deriving DecidableEq, Repr

/-- Source: the JS expression a or-else b on strings, where undefined and
the empty string are falsy. -/
def orFalsy (a b : Option String) : String :=
  match a with
  | some u => if u = "" then b.getD "" else u
  | none => b.getD ""

/-- Source: msg.userId() or-else msg.email(), lines 70, 112, 159, 239. -/
def msgId (m : Msg) : String := orFalsy m.userId m.email

/-- Body of a successful create-job response: res.body with fields id and
closing_at (line 262). -/
structure CreateResp where
  id : String
  closing_at : Int
deriving DecidableEq, Repr

/-- Outcome of one external callback-style call: an error (carried as an
opaque numeric code) or a success value. -/
inductive RRes (α : Type)
  | err (e : Nat)
  | ok (v : α)
deriving DecidableEq, Repr

/-- Environment: the outcome each external collaborator would return for
the single call the coordinator can make to it during one request. -/
structure Env where
  lockErr : Option Nat
  getResult : RRes (Option String)
  appendResult : RRes Nat
  createResult : RRes CreateResp
  setFails : Bool
  now : Int
deriving DecidableEq, Repr

/-- Observable side effects issued by the coordinator, in order. -/
inductive Effect
  | lock (key : String)
  | unlock (key : String)
  | redisGet (jobKey : String)
  | redisSet (jobKey : String) (jobId : String) (px : Int)
  | append (endpoint : String) (jobId : String)
  | create (endpoint : String)
  | post (endpoint : String)
deriving DecidableEq, Repr

/-- Response value handed to the caller callback on success. -/
inductive RespVal
  | appendR (r : Nat)
  | createR (c : CreateResp)
  | postR (r : Nat)
deriving DecidableEq, Repr

/-- Arguments of the caller callback fn(err, res). -/
structure Outcome where
  err : Option Nat
  res : Option RespVal
deriving DecidableEq, Repr

/-- One interpreted request: the effects issued and the callback outcome. -/
structure Run where
  effects : List Effect
  outcome : Outcome
deriving DecidableEq, Repr

/-- Source line 203 and 240: dataType = action equals track ? events : users. -/
def bulkDataType (m : Msg) : String :=
  if m.action = .track then "events" else "users"

/-- Source line 204 and 241: endpoint = fmt with /bulk/ and the data type. -/
def bulkEndpoint (m : Msg) : String := "/bulk/" ++ bulkDataType m

/-- Source line 71: lock key of identifyV2, [appId, id].join. -/
def identifyV2LockKey (st : Settings) (m : Msg) : String :=
  jsJoin ":" [st.appId, msgId m]

/-- Source line 163: lock key of trackV2, [appId, id].join. -/
def trackV2LockKey (st : Settings) (m : Msg) : String :=
  jsJoin ":" [st.appId, msgId m]

/-- Source line 117: lock key of groupV2, [appId, groups, id].join. -/
def groupV2LockKey (st : Settings) (m : Msg) : String :=
  jsJoin ":" [st.appId, "groups", msgId m]

/-- Source line 169: job key looked up by trackV2. -/
def trackV2JobKey (st : Settings) (m : Msg) : String :=
  jsJoin ":" [st.appId, "jobs", "events", msgId m]

/-- Source line 123: job key looked up by groupV2. -/
def groupV2JobKey (st : Settings) (m : Msg) : String :=
  jsJoin ":" [st.appId, "jobs", "users", msgId m]

/-- Source line 242: job key written by createNewJob. -/
def createJobKey (st : Settings) (m : Msg) : String :=
  jsJoin ":" [st.appId, "jobs", bulkDataType m, msgId m]

/-- Source lines 237-272: createNewJob posts a create request; on error it
unlocks and calls fn(err, res); on success it computes the expiration
Date.now() minus closing_at minus 15000, stores the job id in redis with
that PX value, and unlocks and returns the success response whatever the
redis set reported. -/
def createNewJob (st : Settings) (msg : Msg) (key : String) (env : Env) : Run :=
  let endpoint := bulkEndpoint msg
  let jobKey := createJobKey st msg
  match env.createResult with
  | .err e =>
      ⟨[.create endpoint, .unlock key], ⟨some e, none⟩⟩
  | .ok job =>
      let expiration := env.now - job.closing_at - 15000
      ⟨[.create endpoint, .redisSet jobKey job.id expiration, .unlock key],
        ⟨none, some (.createR job)⟩⟩

/-- Source lines 201-223: addToExisting posts an append request carrying the
stored job id; on error it falls back to createNewJob (dropping the append
error); on success it unlocks and calls fn(err, res) with err null. -/
def addToExisting (st : Settings) (jobId : String) (msg : Msg) (key : String)
    (env : Env) : Run :=
  let endpoint := bulkEndpoint msg
  match env.appendResult with
  | .err _ =>
      let c := createNewJob st msg key env
      ⟨.append endpoint jobId :: c.effects, c.outcome⟩
  | .ok r =>
      ⟨[.append endpoint jobId, .unlock key], ⟨none, some (.appendR r)⟩⟩

/-- Source lines 158-187: trackV2 locks the track lock key, looks up the
events job key in redis, and on a hit appends (addToExisting) while on a
miss creates (createNewJob); a redis get error unlocks and surfaces the
error; a lock error is surfaced without unlocking. -/
def trackV2 (st : Settings) (event : Msg) (env : Env) : Run :=
  let key := trackV2LockKey st event
  match env.lockErr with
  | some e => ⟨[.lock key], ⟨some e, none⟩⟩
  | none =>
      let jobKey := trackV2JobKey st event
      match env.getResult with
      | .err e => ⟨[.lock key, .redisGet jobKey, .unlock key], ⟨some e, none⟩⟩
      | .ok (some jobId) =>
          let r := addToExisting st jobId event key env
          ⟨.lock key :: .redisGet jobKey :: r.effects, r.outcome⟩
      | .ok none =>
          let r := createNewJob st event key env
          ⟨.lock key :: .redisGet jobKey :: r.effects, r.outcome⟩

/-- Source lines 110-139: groupV2, same coordinator shape as trackV2 but
with the groups lock key and the users job key. -/
def groupV2 (st : Settings) (group : Msg) (env : Env) : Run :=
  let key := groupV2LockKey st group
  match env.lockErr with
  | some e => ⟨[.lock key], ⟨some e, none⟩⟩
  | none =>
      let jobKey := groupV2JobKey st group
      match env.getResult with
      | .err e => ⟨[.lock key, .redisGet jobKey, .unlock key], ⟨some e, none⟩⟩
      | .ok (some jobId) =>
          let r := addToExisting st jobId group key env
          ⟨.lock key :: .redisGet jobKey :: r.effects, r.outcome⟩
      | .ok none =>
          let r := createNewJob st group key env
          ⟨.lock key :: .redisGet jobKey :: r.effects, r.outcome⟩

/-- Environment of the single-record V1 and identifyV2 posts. -/
structure PostEnv where
  lockErr : Option Nat
  postResult : RRes Nat
deriving DecidableEq, Repr

/-- Source lines 69-89: identifyV2 locks the shared per-user key, posts to
/users, then unlocks and passes (err, res) through. -/
def identifyV2 (st : Settings) (identify : Msg) (env : PostEnv) : Run :=
  let key := identifyV2LockKey st identify
  match env.lockErr with
  | some e => ⟨[.lock key], ⟨some e, none⟩⟩
  | none =>
      match env.postResult with
      | .err e => ⟨[.lock key, .post "/users", .unlock key], ⟨some e, none⟩⟩
      | .ok r => ⟨[.lock key, .post "/users", .unlock key], ⟨none, some (.postR r)⟩⟩

/-- Source lines 344-354: trackV1 posts to /events with no lock and no
redis interaction at all. -/
def trackV1 (res : RRes Nat) : Run :=
  match res with
  | .err e => ⟨[.post "/events"], ⟨some e, none⟩⟩
  | .ok r => ⟨[.post "/events"], ⟨none, some (.postR r)⟩⟩

/-- Names of the six method implementations the prototype can expose. -/
inductive HandlerRef
  | identifyV1
  | trackV1
  | groupV1
  | identifyV2
  | trackV2
  | groupV2
deriving DecidableEq, Repr

/-- The three public method slots set by the prototype setup. -/
structure Handlers where
  identify : HandlerRef
  track : HandlerRef
  group : HandlerRef
deriving DecidableEq, Repr

/-- Source lines 44-56 (Intercom.prototype initialize method): when
settings.isBulkAPIEnabled is truthy the V1 single-record methods are
installed, otherwise the V2 bulk coordinator methods. -/
def setupHandlers (st : Settings) : Handlers :=
  if st.isBulkAPIEnabled then ⟨.identifyV1, .trackV1, .groupV1⟩
  else ⟨.identifyV2, .trackV2, .groupV2⟩

/-- Effect classifiers used to count lock and upstream operations. -/
def isUnlock : Effect → Bool
  | .unlock _ => true
  | _ => false

def isLock : Effect → Bool
  | .lock _ => true
  | _ => false

def isCreate : Effect → Bool
  | .create _ => true
  | _ => false

def isAppend : Effect → Bool
  | .append _ _ => true
  | _ => false

def isRedisOp : Effect → Bool
  | .redisGet _ => true
  | .redisSet _ _ _ => true
  | _ => false

/-
Trait formatting (source lines 364-408). Values are abstracted to the
shape the code inspects: dateLike covers exactly the values for which
isostring(val) or is.date(val) holds (carrying the unix time the external
unix-time package would produce for them), intVal is a plain number, and
plain is any other value. The key manipulation is modelled exactly.
-/

/-- Abstracted trait value; dateLike carries the unix time of the date. -/
inductive TraitVal
  | dateLike (unix : Int)
  | intVal (n : Int)
  | plain (s : String)
deriving DecidableEq, Repr

/-- Source line 369: the test isostring(val) or is.date(val). -/
def isDateVal : TraitVal → Bool
  | .dateLike _ => true
  | _ => false

/-- Source line 370: time(val), the integer unix timestamp of a date. -/
def timeOf : TraitVal → TraitVal
  | .dateLike t => .intVal t
  | v => v

/-- Characters of str.toLowerCase(). -/
def jsToLower (s : String) : List Char := s.data.map Char.toLower

/-- Source lines 405-408: endswith lowercases str and compares its last
suffix.length characters with the suffix. The JS substr call clamps a
negative start index; for a string shorter than the suffix both the JS
clamping and the Nat truncated subtraction used here yield a comparison
of lists of different lengths, hence false either way. -/
def endswith (str suffix : String) : Bool :=
  let s := jsToLower str
  decide (s.drop (s.length - suffix.data.length) = suffix.data)

/-- Source lines 390-394: dateKey leaves a key ending in _at unchanged,
rewrites a trailing space-at to _at, and otherwise appends _at. -/
def dateKey (key : String) : String :=
  if endswith key "_at" then key
  else if endswith key " at" then
    String.mk (key.data.take (key.data.length - 3)) ++ "_at"
  else key ++ "_at"

/-- Modelled from the claim wording of C9, for comparison with dateKey: a
key already ending in _at (case-insensitive) is unchanged, a key ending in
space-at has that suffix replaced by _at, and any other key has _at
appended. -/
def dateKeySpec (key : String) : String :=
  if "_at".data <:+ jsToLower key then key
  else if " at".data <:+ jsToLower key then
    String.mk (key.data.take (key.data.length - 3)) ++ "_at"
  else key ++ "_at"

/-- JS object property assignment on an insertion-ordered association
list: overwrite in place when the key exists, append otherwise. -/
def objSet (obj : List (String × TraitVal)) (k : String) (v : TraitVal) :
    List (String × TraitVal) :=
  if obj.any (fun e => e.1 = k) then
    obj.map (fun e => if e.1 = k then (e.1, v) else e)
  else obj ++ [(k, v)]

/-- Source lines 367-374, the body of the forEach: a date-like value is
replaced by its unix time and its key canonicalized by dateKey; any other
entry is kept as is. -/
def fmtEntry (e : String × TraitVal) : String × TraitVal :=
  if isDateVal e.2 then (dateKey e.1, timeOf e.2) else e

/-- Source lines 364-378: formatTraits builds the output object by
iterating the entries in order and assigning the formatted entry. -/
def formatTraits (traits : List (String × TraitVal)) : List (String × TraitVal) :=
  traits.foldl (fun output e => objSet output (fmtEntry e).1 (fmtEntry e).2) []

/-
Concurrency model for two coordinator instances sharing one LockKey.
Each request is abstracted to the sequence of external operations the
trackV2 interpreter issues (its program); an interleaving semantics lets
a scheduler pick either process at each step, with the acquire action of
the shared lock enabled only while no process holds it, exactly the
queueing contract of the lock collaborator. The trace records the global
order of operations.
-/

/-- Abstract operation kinds of one coordinator request. -/
inductive PAction
  | acquire
  | lookup
  | upstreamAppend
  | upstreamCreate
  | dirWrite
  | release
  | httpPost
deriving DecidableEq, Repr

/-- Abstraction from concrete effects to operation kinds. -/
def toPAction : Effect → PAction
  | .lock _ => .acquire
  | .unlock _ => .release
  | .redisGet _ => .lookup
  | .redisSet _ _ _ => .dirWrite
  | .append _ _ => .upstreamAppend
  | .create _ => .upstreamCreate
  | .post _ => .httpPost

/-- The operation sequence one trackV2 request performs in environment e. -/
def progOf (st : Settings) (m : Msg) (e : Env) : List PAction :=
  (trackV2 st m e).effects.map toPAction

/-- Shape of every coordinator program once the lock is granted: acquire,
then the directory lookup, then lock-free middle operations, then the
final release. -/
def ProgShape (p : List PAction) : Prop :=
  ∃ mid, p = .acquire :: .lookup :: mid ++ [.release] ∧
    ∀ a ∈ mid, a ≠ PAction.acquire ∧ a ≠ PAction.release

/-- Global state of the two-process interleaving semantics. -/
structure CState where
  lockHeld : Option (Fin 2)
  pc0 : Nat
  pc1 : Nat
  trace : List (Fin 2 × PAction)
deriving DecidableEq, Repr

/-- Initial state: lock free, both processes at the start, empty trace. -/
def initState : CState := ⟨none, 0, 0, []⟩

/-- Program of process i. -/
def progFor (p0 p1 : List PAction) (i : Fin 2) : List PAction :=
  if i = 0 then p0 else p1

/-- Program counter of process i. -/
def pcFor (s : CState) (i : Fin 2) : Nat :=
  if i = 0 then s.pc0 else s.pc1

/-- One step of process i: execute its next operation if enabled. The
shared-lock acquire is enabled only while no process holds the lock;
every operation is appended to the global trace. -/
def stepFn (p0 p1 : List PAction) (i : Fin 2) (s : CState) : Option CState :=
  match (progFor p0 p1 i)[pcFor s i]? with
  | none => none
  | some a =>
      if a = PAction.acquire ∧ s.lockHeld ≠ none then none
      else some
        { lockHeld :=
            match a with
            | .acquire => some i
            | .release => none
            | _ => s.lockHeld
          pc0 := if i = 0 then s.pc0 + 1 else s.pc0
          pc1 := if i = 1 then s.pc1 + 1 else s.pc1
          trace := s.trace ++ [(i, a)] }

/-- Scheduler step: either process may move. -/
def SchedStep (p0 p1 : List PAction) (s sNext : CState) : Prop :=
  ∃ i, stepFn p0 p1 i s = some sNext

/-- States reachable from the initial state under the two programs. -/
def Reachable (p0 p1 : List PAction) (s : CState) : Prop :=
  Relation.ReflTransGen (SchedStep p0 p1) initState s

/-- Trace fragment contributed by the first pc operations of process i. -/
def procPrefix (p : List PAction) (i : Fin 2) (pc : Nat) :
    List (Fin 2 × PAction) :=
  (p.take pc).map (fun a => (i, a))

/-- Inductive invariant of the interleaving semantics: program counters
stay in range, the lock is held by process i exactly between its acquire
and its release, and the global trace is one process prefix followed by
the other, the follower having started only after the leader finished. -/
def CInv (p0 p1 : List PAction) (s : CState) : Prop :=
  s.pc0 ≤ p0.length ∧ s.pc1 ≤ p1.length ∧
  (s.lockHeld = some 0 ↔ (1 ≤ s.pc0 ∧ s.pc0 < p0.length)) ∧
  (s.lockHeld = some 1 ↔ (1 ≤ s.pc1 ∧ s.pc1 < p1.length)) ∧
  ((s.trace = procPrefix p0 0 s.pc0 ++ procPrefix p1 1 s.pc1 ∧
      (1 ≤ s.pc1 → s.pc0 = p0.length)) ∨
   (s.trace = procPrefix p1 1 s.pc1 ++ procPrefix p0 0 s.pc0 ∧
      (1 ≤ s.pc0 → s.pc1 = p1.length)))

/-
Concrete inputs used by the witness theorems.
-/

def exSettings : Settings := ⟨"app", false⟩

def exTrack : Msg := ⟨.track, some "u1", none⟩

def exGroup : Msg := ⟨.group, some "u1", none⟩

def exJob : CreateResp := ⟨"J2", 900000⟩

def envAppendFail : Env := ⟨none, .ok (some "J1"), .err 500, .ok exJob, false, 0⟩

def envMiss : Env := ⟨none, .ok none, .err 0, .ok exJob, true, 0⟩

def exEnvGet : Env := ⟨none, .err 7, .ok 1, .ok exJob, false, 0⟩

def envC3 : Env := ⟨none, .ok none, .ok 1, .ok ⟨"J9", 900000⟩, false, 0⟩

def exPostEnv : PostEnv := ⟨none, .ok 3⟩

def exTraits : List (String × TraitVal) :=
  [("created", .dateLike 100), ("name", .plain "bob"),
   ("signed up at", .dateLike 200), ("Updated_At", .dateLike 300)]

/-
Concrete two-process schedule used by the C8 witness: process 0 runs its
whole request (here the short lookup-error path), then process 1 acquires.
-/

def c8s1 : CState := ⟨some 0, 1, 0, [(0, .acquire)]⟩

def c8s2 : CState := ⟨some 0, 2, 0, [(0, .acquire), (0, .lookup)]⟩

def c8s3 : CState := ⟨none, 3, 0, [(0, .acquire), (0, .lookup), (0, .release)]⟩

def c8sFinal : CState :=
  ⟨some 1, 3, 1,
   [(0, .acquire), (0, .lookup), (0, .release), (1, .acquire)]⟩

end IntercomSpec

namespace IntercomSpec

/-- C7: for every tenant appId and user id, identifyV2 and trackV2 compute
the same lock key while groupV2 computes a different one, so identify and
track share one mutual-exclusion domain per user and group uses a
separate one. -/
theorem c7_lock_key_domains (st : Settings) (m : Msg) :
    identifyV2LockKey st m = trackV2LockKey st m ∧
    groupV2LockKey st m ≠ trackV2LockKey st m := by
  refine ⟨rfl, fun h => ?_⟩
  have hl := congrArg String.length h
  have h1 : (":" : String).length = 1 := rfl
  have h6 : ("groups" : String).length = 6 := rfl
  simp only [groupV2LockKey, trackV2LockKey, jsJoin, String.length_append,
    h1, h6] at hl
  omega

/-- C10: the prototype setup installs the V1 single-record methods exactly
when settings.isBulkAPIEnabled is truthy and the V2 bulk coordinator
methods exactly when it is falsy, and trackV1 only posts to /events,
with no locking and no job coalescing. -/
theorem c10_version_selection :
    (∀ st : Settings,
      ((setupHandlers st).identify = HandlerRef.identifyV1 ∧
       (setupHandlers st).track = HandlerRef.trackV1 ∧
       (setupHandlers st).group = HandlerRef.groupV1) ↔ st.isBulkAPIEnabled = true) ∧
    (∀ st : Settings,
      ((setupHandlers st).identify = HandlerRef.identifyV2 ∧
       (setupHandlers st).track = HandlerRef.trackV2 ∧
       (setupHandlers st).group = HandlerRef.groupV2) ↔ st.isBulkAPIEnabled = false) ∧
    (∀ r : RRes Nat, (trackV1 r).effects = [Effect.post "/events"]) := by
  refine ⟨fun st => ?_, fun st => ?_, fun r => ?_⟩
  · cases h : st.isBulkAPIEnabled <;> simp [setupHandlers, h]
  · cases h : st.isBulkAPIEnabled <;> simp [setupHandlers, h]
  · cases r <;> rfl

/-- C4: when the lock is granted and the directory lookup returns no
record and no error, both bulk coordinators issue exactly one create call
and no append call. -/
theorem c4_miss_creates_once (st : Settings) (m : Msg) (env : Env)
    (hlock : env.lockErr = none) (hget : env.getResult = .ok none) :
    ((trackV2 st m env).effects.countP isCreate = 1 ∧
     (trackV2 st m env).effects.countP isAppend = 0) ∧
    ((groupV2 st m env).effects.countP isCreate = 1 ∧
     (groupV2 st m env).effects.countP isAppend = 0) := by
  cases hc : env.createResult <;>
    simp [trackV2, groupV2, createNewJob, hlock, hget, hc,
      List.countP_cons, isCreate, isAppend]

/-- C4 witness at a concrete miss environment. -/
theorem c4_witness :
    ((trackV2 exSettings exTrack envMiss).effects.countP isCreate = 1 ∧
     (trackV2 exSettings exTrack envMiss).effects.countP isAppend = 0) ∧
    ((groupV2 exSettings exTrack envMiss).effects.countP isCreate = 1 ∧
     (groupV2 exSettings exTrack envMiss).effects.countP isAppend = 0) :=
  c4_miss_creates_once exSettings exTrack envMiss rfl rfl

/-- C6: when the lock is granted and the directory lookup itself errors,
both bulk coordinators issue no upstream call at all, release the lock,
and surface the lookup error to the caller. -/
theorem c6_get_error_aborts (st : Settings) (m : Msg) (env : Env) (e : Nat)
    (hlock : env.lockErr = none) (hget : env.getResult = .err e) :
    (trackV2 st m env).effects =
      [.lock (trackV2LockKey st m), .redisGet (trackV2JobKey st m),
       .unlock (trackV2LockKey st m)] ∧
    (trackV2 st m env).outcome = ⟨some e, none⟩ ∧
    (groupV2 st m env).effects =
      [.lock (groupV2LockKey st m), .redisGet (groupV2JobKey st m),
       .unlock (groupV2LockKey st m)] ∧
    (groupV2 st m env).outcome = ⟨some e, none⟩ := by
  simp [trackV2, groupV2, hlock, hget]

/-- C6 witness at a concrete failing-lookup environment. -/
theorem c6_witness :
    (trackV2 exSettings exTrack exEnvGet).effects =
      [.lock (trackV2LockKey exSettings exTrack),
       .redisGet (trackV2JobKey exSettings exTrack),
       .unlock (trackV2LockKey exSettings exTrack)] ∧
    (trackV2 exSettings exTrack exEnvGet).outcome = ⟨some 7, none⟩ ∧
    (groupV2 exSettings exTrack exEnvGet).effects =
      [.lock (groupV2LockKey exSettings exTrack),
       .redisGet (groupV2JobKey exSettings exTrack),
       .unlock (groupV2LockKey exSettings exTrack)] ∧
    (groupV2 exSettings exTrack exEnvGet).outcome = ⟨some 7, none⟩ :=
  c6_get_error_aborts exSettings exTrack exEnvGet 7 rfl rfl

/-- C5: on any path that reaches a successful create (a directory miss or
an append-failure fallback), the caller receives the successful create
response with no error, whether or not the subsequent directory write
fails. -/
theorem c5_set_failure_invisible (st : Settings) (m : Msg) (env : Env)
    (job : CreateResp)
    (hlock : env.lockErr = none) (hcreate : env.createResult = .ok job)
    (hpath : env.getResult = .ok none ∨
      ∃ jid er, env.getResult = .ok (some jid) ∧ env.appendResult = .err er) :
    ∀ b : Bool,
      (trackV2 st m { env with setFails := b }).outcome =
        ⟨none, some (.createR job)⟩ ∧
      (groupV2 st m { env with setFails := b }).outcome =
        ⟨none, some (.createR job)⟩ := by
  intro b
  rcases hpath with hg | ⟨jid, er, hg, ha⟩ <;>
    simp [trackV2, groupV2, addToExisting, createNewJob, hlock, hcreate, hg,
      *]

/-- C5 witness: append-fallback path with a failing directory write. -/
theorem c5_witness :
    (trackV2 exSettings exTrack { envAppendFail with setFails := true }).outcome =
      ⟨none, some (.createR exJob)⟩ ∧
    (groupV2 exSettings exTrack { envAppendFail with setFails := true }).outcome =
      ⟨none, some (.createR exJob)⟩ :=
  c5_set_failure_invisible exSettings exTrack envAppendFail exJob rfl rfl
    (Or.inr ⟨"J1", 500, rfl, rfl⟩) true

/-- C1: on a directory hit, the coordinator first issues the append; if
the append errors, it issues exactly one create and, on create success,
the caller receives the create response with no error, never seeing the
append failure. Stated for a track request and a group request by giving
the complete effect list of each. -/
theorem c1_append_fallback (st : Settings) (mt mg : Msg) (env : Env)
    (jid : String) (er : Nat) (job : CreateResp)
    (htrack : mt.action = .track) (hgroup : mg.action = .group)
    (hlock : env.lockErr = none) (hget : env.getResult = .ok (some jid))
    (happ : env.appendResult = .err er) (hcreate : env.createResult = .ok job) :
    (trackV2 st mt env).effects =
      [.lock (trackV2LockKey st mt), .redisGet (trackV2JobKey st mt),
       .append "/bulk/events" jid, .create "/bulk/events",
       .redisSet (createJobKey st mt) job.id (env.now - job.closing_at - 15000),
       .unlock (trackV2LockKey st mt)] ∧
    (trackV2 st mt env).outcome = ⟨none, some (.createR job)⟩ ∧
    (groupV2 st mg env).effects =
      [.lock (groupV2LockKey st mg), .redisGet (groupV2JobKey st mg),
       .append "/bulk/users" jid, .create "/bulk/users",
       .redisSet (createJobKey st mg) job.id (env.now - job.closing_at - 15000),
       .unlock (groupV2LockKey st mg)] ∧
    (groupV2 st mg env).outcome = ⟨none, some (.createR job)⟩ := by
  simp [trackV2, groupV2, addToExisting, createNewJob, bulkEndpoint,
    bulkDataType, hlock, hget, happ, hcreate, htrack, hgroup]

/-- C1 witness at a concrete append-failure environment. -/
theorem c1_witness :
    (trackV2 exSettings exTrack envAppendFail).outcome =
      ⟨none, some (.createR exJob)⟩ ∧
    (groupV2 exSettings exGroup envAppendFail).outcome =
      ⟨none, some (.createR exJob)⟩ :=
  ⟨(c1_append_fallback exSettings exTrack exGroup envAppendFail "J1" 500 exJob
      rfl rfl rfl rfl rfl rfl).2.1,
   (c1_append_fallback exSettings exTrack exGroup envAppendFail "J1" 500 exJob
      rfl rfl rfl rfl rfl rfl).2.2.2⟩

/-- C2: whenever the lock is granted, each coordinator issues exactly one
unlock, of its own lock key, and it is the last effect before the caller
callback, on every terminal path. -/
theorem c2_unlock_exactly_once (st : Settings) (m : Msg) (env : Env)
    (penv : PostEnv)
    (hlock : env.lockErr = none) (hplock : penv.lockErr = none) :
    ((trackV2 st m env).effects.countP isUnlock = 1 ∧
     (trackV2 st m env).effects.getLast? =
       some (.unlock (trackV2LockKey st m))) ∧
    ((groupV2 st m env).effects.countP isUnlock = 1 ∧
     (groupV2 st m env).effects.getLast? =
       some (.unlock (groupV2LockKey st m))) ∧
    ((identifyV2 st m penv).effects.countP isUnlock = 1 ∧
     (identifyV2 st m penv).effects.getLast? =
       some (.unlock (identifyV2LockKey st m))) := by
  obtain ⟨le, gr, ar, cr, sf, nw⟩ := env
  obtain ⟨ple, pr⟩ := penv
  cases hlock
  cases hplock
  rcases gr with e | v
  · cases pr <;>
      simp [trackV2, groupV2, identifyV2, List.countP_cons, isUnlock,
        List.getLast?]
  · rcases v with _ | jid <;> rcases ar with e1 | r1 <;> rcases cr with e2 | j2 <;>
      cases pr <;>
      simp [trackV2, groupV2, identifyV2, addToExisting, createNewJob,
        List.countP_cons, isUnlock, List.getLast?]

/-- C2 witness at concrete environments. -/
theorem c2_witness :
    ((trackV2 exSettings exTrack envAppendFail).effects.countP isUnlock = 1 ∧
     (trackV2 exSettings exTrack envAppendFail).effects.getLast? =
       some (.unlock (trackV2LockKey exSettings exTrack))) ∧
    ((groupV2 exSettings exTrack envAppendFail).effects.countP isUnlock = 1 ∧
     (groupV2 exSettings exTrack envAppendFail).effects.getLast? =
       some (.unlock (groupV2LockKey exSettings exTrack))) ∧
    ((identifyV2 exSettings exTrack exPostEnv).effects.countP isUnlock = 1 ∧
     (identifyV2 exSettings exTrack exPostEnv).effects.getLast? =
       some (.unlock (identifyV2LockKey exSettings exTrack))) :=
  c2_unlock_exactly_once exSettings exTrack envAppendFail exPostEnv rfl rfl

/-- C3: counterexample to the stated TTL policy. At a create reporting a
closing time 900000 ms ahead (now = 0), line 263 computes the expiration
Date.now() minus closing_at minus 15000 = -915000, a negative PX value,
whereas the ~15 second safety margin described by the claim and by the
comment in the source would be closing_at minus Date.now() minus 15000 =
885000. The third conjunct records that the stored value is negative, so
it is not a TTL strictly below the closing window. -/
theorem c3_negative_ttl :
    (trackV2 exSettings exTrack envC3).effects =
      [.lock "app:u1", .redisGet "app:jobs:events:u1", .create "/bulk/events",
       .redisSet "app:jobs:events:u1" "J9" (-915000), .unlock "app:u1"] ∧
    envC3.now - 900000 - 15000 = (-915000 : Int) ∧
    ((-915000 : Int) < 0 ∧ (900000 : Int) - envC3.now - 15000 = 885000) := by
  decide

/-- The substr-based suffix test of the source is the ordinary
case-insensitive suffix relation. -/
theorem endswith_iff (str suffix : String) :
    endswith str suffix = true ↔ suffix.data <:+ jsToLower str := by
  unfold endswith
  rw [decide_eq_true_eq, List.suffix_iff_eq_drop, eq_comm]

/-- The source dateKey agrees everywhere with the three-case description
of the claim. -/
theorem dateKey_eq_spec (key : String) : dateKey key = dateKeySpec key := by
  have h1 := endswith_iff key "_at"
  have h2 := endswith_iff key " at"
  unfold dateKey dateKeySpec
  split_ifs with a b c d e f <;> simp_all

/-- Unfolding one step of the formatTraits fold when the formatted key is
fresh in the accumulator. -/
theorem formatTraits_go (ts : List (String × TraitVal)) :
    ∀ acc : List (String × TraitVal),
      ((acc ++ ts.map fmtEntry).map Prod.fst).Nodup →
      ts.foldl (fun output e => objSet output (fmtEntry e).1 (fmtEntry e).2) acc
        = acc ++ ts.map fmtEntry := by
  induction ts with
  | nil => intro acc _; simp
  | cons e ts ih =>
      intro acc h
      simp only [List.map_cons, List.map_append] at h
      have hfresh : ¬ (acc.any (fun x => x.1 = (fmtEntry e).1)) = true := by
        intro hc
        obtain ⟨x, hx, hxk⟩ := List.any_eq_true.mp hc
        obtain ⟨-, -, hdisj⟩ := List.nodup_append.mp h
        have hmem : (fmtEntry e).1 ∈ acc.map Prod.fst := by
          rw [← of_decide_eq_true hxk]
          exact List.mem_map_of_mem Prod.fst hx
        exact hdisj hmem (List.mem_cons_self _ _)
      simp only [List.foldl_cons]
      rw [objSet, if_neg hfresh]
      rw [ih (acc ++ [fmtEntry e]) (by simpa using h)]
      simp

/-- C9: formatTraits transforms every entry independently (whenever the
canonicalized keys are distinct, as JS object assembly merges duplicate
keys): each date-like value becomes its integer unix timestamp with the
key canonicalized by dateKey, every other entry passes through unchanged,
and dateKey realizes exactly the claimed case analysis: a key already
ending in _at (case-insensitive) is unchanged, a trailing space-at is
replaced by _at, and otherwise _at is appended. -/
theorem c9_format_traits :
    (∀ traits : List (String × TraitVal),
        ((traits.map fmtEntry).map Prod.fst).Nodup →
        formatTraits traits = traits.map fmtEntry) ∧
    (∀ (k : String) (t : Int),
        fmtEntry (k, TraitVal.dateLike t) = (dateKey k, TraitVal.intVal t)) ∧
    (∀ (k : String) (v : TraitVal), isDateVal v = false → fmtEntry (k, v) = (k, v)) ∧
    (∀ key : String, dateKey key = dateKeySpec key) := by
  refine ⟨fun traits h => ?_, fun k t => rfl, fun k v hv => ?_, dateKey_eq_spec⟩
  · unfold formatTraits
    exact formatTraits_go traits [] (by simpa using h)
  · simp [fmtEntry, hv]

/-- C9 witness on a concrete traits object exercising all three key
cases. -/
theorem c9_witness :
    formatTraits exTraits = exTraits.map fmtEntry ∧
    exTraits.map fmtEntry =
      [("created_at", .intVal 100), ("name", .plain "bob"),
       ("signed up_at", .intVal 200), ("Updated_At", .intVal 300)] :=
  ⟨c9_format_traits.1 exTraits (by decide), by decide⟩

/-- Every trackV2 program that got past the lock has the coordinator
shape: acquire, lookup, lock-free middle, final release. -/
theorem progOf_shape (st : Settings) (m : Msg) (e : Env)
    (h : e.lockErr = none) : ProgShape (progOf st m e) := by
  obtain ⟨le, gr, ar, cr, sf, nw⟩ := e
  have hle : le = none := h
  subst hle
  rcases gr with e0 | v
  · exact ⟨[], rfl, by decide⟩
  · rcases v with _ | jid
    · rcases cr with e2 | j2
      · exact ⟨[.upstreamCreate], rfl, by decide⟩
      · exact ⟨[.upstreamCreate, .dirWrite], rfl, by decide⟩
    · rcases ar with e1 | r1
      · rcases cr with e2 | j2
        · exact ⟨[.upstreamAppend, .upstreamCreate], rfl, by decide⟩
        · exact ⟨[.upstreamAppend, .upstreamCreate, .dirWrite], rfl, by decide⟩
      · exact ⟨[.upstreamAppend], rfl, by decide⟩

theorem ProgShape.three_le {p : List PAction} (hp : ProgShape p) :
    3 ≤ p.length := by
  obtain ⟨mid, rfl, -⟩ := hp
  simp [List.length_append]

theorem ProgShape.get_zero {p : List PAction} (hp : ProgShape p) :
    p[0]? = some PAction.acquire := by
  obtain ⟨mid, rfl, -⟩ := hp
  rfl

theorem ProgShape.acquire_pos {p : List PAction} (hp : ProgShape p) {n : Nat}
    (h : p[n]? = some PAction.acquire) : n = 0 := by
  obtain ⟨mid, rfl, hfree⟩ := hp
  rcases Nat.lt_or_ge n (PAction.acquire :: PAction.lookup :: mid).length
    with hk | hk
  · rw [List.getElem?_append_left hk] at h
    rcases n with _ | n
    · rfl
    · exfalso
      simp only [List.getElem?_cons_succ] at h
      rcases n with _ | k
      · simp at h
      · simp only [List.getElem?_cons_succ] at h
        exact (hfree _ (List.getElem?_mem h)).1 rfl
  · exfalso
    rw [List.getElem?_append_right hk] at h
    have hmm := List.getElem?_mem h
    simp at hmm

theorem ProgShape.get_last {p : List PAction} (hp : ProgShape p) :
    p[p.length - 1]? = some PAction.release := by
  obtain ⟨mid, rfl, -⟩ := hp
  have hlen : ((PAction.acquire :: PAction.lookup :: mid) ++
      [PAction.release]).length - 1
      = (PAction.acquire :: PAction.lookup :: mid).length := by
    simp
  rw [hlen]
  exact List.getElem?_concat_length _ _

theorem ProgShape.release_pos {p : List PAction} (hp : ProgShape p) {n : Nat}
    (h : p[n]? = some PAction.release) : n = p.length - 1 := by
  obtain ⟨mid, rfl, hfree⟩ := hp
  have hlen : ((PAction.acquire :: PAction.lookup :: mid) ++
      [PAction.release]).length = mid.length + 3 := by
    simp
  rcases Nat.lt_or_ge n (PAction.acquire :: PAction.lookup :: mid).length
    with hk | hk
  · exfalso
    rw [List.getElem?_append_left hk] at h
    rcases n with _ | n
    · simp at h
    · simp only [List.getElem?_cons_succ] at h
      rcases n with _ | k
      · simp at h
      · simp only [List.getElem?_cons_succ] at h
        exact (hfree _ (List.getElem?_mem h)).2 rfl
  · rw [List.getElem?_append_right hk] at h
    have hb : n - (PAction.acquire :: PAction.lookup :: mid).length < 1 := by
      simpa using (List.getElem?_eq_some.mp h).1
    simp only [List.length_cons] at hk hb
    rw [hlen]
    omega

theorem ProgShape.mid_bounds {p : List PAction} (hp : ProgShape p) {n : Nat}
    {a : PAction} (h : p[n]? = some a) (hna : a ≠ PAction.acquire)
    (hnr : a ≠ PAction.release) : 1 ≤ n ∧ n + 1 < p.length := by
  have h3 := hp.three_le
  have hlt : n < p.length := (List.getElem?_eq_some.mp h).1
  have hzero : n ≠ 0 := by
    intro h0
    subst h0
    rw [hp.get_zero] at h
    exact hna (Option.some.inj h).symm
  have hlast : n ≠ p.length - 1 := by
    intro hl
    have hrel := hp.get_last
    rw [← hl, h] at hrel
    exact hnr (Option.some.inj hrel)
  omega

theorem procPrefix_succ (p : List PAction) (i : Fin 2) (pc : Nat) (a : PAction)
    (h : p[pc]? = some a) :
    procPrefix p i (pc + 1) = procPrefix p i pc ++ [(i, a)] := by
  unfold procPrefix
  rw [List.take_succ, h]
  simp

theorem procPrefix_fst {p : List PAction} {i : Fin 2} {pc : Nat}
    {x : Fin 2 × PAction} (hx : x ∈ procPrefix p i pc) : x.1 = i := by
  obtain ⟨a, -, rfl⟩ := List.mem_map.mp hx
  rfl

theorem procPrefix_length (p : List PAction) (i : Fin 2) (pc : Nat)
    (hpc : pc ≤ p.length) : (procPrefix p i pc).length = pc := by
  simp [procPrefix]
  omega

theorem getElem?_append_tag_left {A B : List (Fin 2 × PAction)} {n : Nat}
    {i j : Fin 2} {a : PAction} (hA : ∀ x ∈ A, x.1 = i) (hj : j ≠ i)
    (h : (A ++ B)[n]? = some (j, a)) : A.length ≤ n := by
  by_contra hn
  push_neg at hn
  rw [List.getElem?_append_left hn] at h
  exact hj (hA _ (List.getElem?_mem h))

theorem getElem?_append_tag_right {A B : List (Fin 2 × PAction)} {n : Nat}
    {i j : Fin 2} {a : PAction} (hB : ∀ x ∈ B, x.1 = i) (hj : j ≠ i)
    (h : (A ++ B)[n]? = some (j, a)) : n < A.length := by
  rcases Nat.lt_or_ge n A.length with hlt | hge
  · exact hlt
  · rw [List.getElem?_append_right hge] at h
    exact absurd (hB _ (List.getElem?_mem h)) hj

theorem procPrefix_zero (p : List PAction) (i : Fin 2) :
    procPrefix p i 0 = [] := rfl

theorem cinv_init (p0 p1 : List PAction) : CInv p0 p1 initState := by
  refine ⟨Nat.zero_le _, Nat.zero_le _, by simp [initState], by simp [initState],
    Or.inl ⟨rfl, ?_⟩⟩
  intro h
  exact absurd h (by simp [initState])

theorem cinv_step (p0 p1 : List PAction) (h0 : ProgShape p0) (h1 : ProgShape p1)
    {s sN : CState} (hinv : CInv p0 p1 s) (hstep : SchedStep p0 p1 s sN) :
    CInv p0 p1 sN := by
  obtain ⟨i, hi⟩ := hstep
  obtain ⟨L, c0, c1, tr⟩ := s
  obtain ⟨hb0, hb1, hl0, hl1, hser⟩ := hinv
  dsimp only at hb0 hb1 hl0 hl1 hser
  have h30 := h0.three_le
  have h31 := h1.three_le
  fin_cases i
  · -- process 0 moves
    simp only [stepFn, progFor, pcFor, if_pos] at hi
    simp at hi
    cases hg : p0[c0]? with
    | none => simp [hg] at hi
    | some a =>
        simp only [hg] at hi
        by_cases hcond : a = PAction.acquire ∧ L ≠ none
        · rw [if_pos hcond] at hi
          exact absurd hi (by simp)
        · rw [if_neg hcond] at hi
          obtain rfl := Option.some.inj hi
          have hlt : c0 < p0.length := (List.getElem?_eq_some.mp hg).1
          have hserN :
              (tr ++ [((0 : Fin 2), a)] =
                  procPrefix p0 0 (c0 + 1) ++ procPrefix p1 1 c1 ∧
                (1 ≤ c1 → c0 + 1 = p0.length)) ∨
              (tr ++ [((0 : Fin 2), a)] =
                  procPrefix p1 1 c1 ++ procPrefix p0 0 (c0 + 1) ∧
                (1 ≤ c0 + 1 → c1 = p1.length)) := by
            rcases hser with ⟨ht, himp⟩ | ⟨ht, himp⟩
            · have hc1z : c1 = 0 := by
                by_contra hne
                have h2 := himp (by omega)
                omega
              left
              refine ⟨?_, fun hcc => absurd hcc (by omega)⟩
              simp [ht, hc1z, procPrefix_succ p0 0 c0 a hg, procPrefix_zero]
            · by_cases hp0 : 1 ≤ c0
              · right
                refine ⟨?_, fun _ => himp hp0⟩
                simp [ht, procPrefix_succ p0 0 c0 a hg, List.append_assoc]
              · have hc00 : c0 = 0 := by omega
                have ha : a = PAction.acquire := by
                  have hz := h0.get_zero
                  rw [hc00] at hg
                  exact Option.some.inj (hg.symm.trans hz)
                have hfree : L = none := by
                  by_contra hneq
                  exact hcond ⟨ha, hneq⟩
                have hc1cases : c1 = 0 ∨ c1 = p1.length := by
                  by_contra hboth
                  push_neg at hboth
                  have h2 : L = some 1 := hl1.mpr ⟨by omega, by omega⟩
                  rw [hfree] at h2
                  exact Option.noConfusion h2
                rcases hc1cases with hz1 | hfull
                · left
                  refine ⟨?_, fun hcc => absurd hcc (by omega)⟩
                  simp [ht, hz1, procPrefix_succ p0 0 c0 a hg, procPrefix_zero]
                · right
                  refine ⟨?_, fun _ => hfull⟩
                  simp [ht, procPrefix_succ p0 0 c0 a hg, List.append_assoc]
          have hlkN :
              ((match a with
                | PAction.acquire => some (0 : Fin 2)
                | PAction.release => none
                | _ => L) = some 0 ↔ (1 ≤ c0 + 1 ∧ c0 + 1 < p0.length)) ∧
              ((match a with
                | PAction.acquire => some (0 : Fin 2)
                | PAction.release => none
                | _ => L) = some 1 ↔ (1 ≤ c1 ∧ c1 < p1.length)) := by
            cases a
            case acquire =>
              have hc00 : c0 = 0 := h0.acquire_pos hg
              have hfree : L = none := by
                by_contra hneq
                exact hcond ⟨rfl, hneq⟩
              constructor
              · constructor
                · intro _
                  exact ⟨by omega, by omega⟩
                · intro _
                  rfl
              · constructor
                · intro h2
                  exact absurd (Option.some.inj h2) (by decide)
                · intro hrhs
                  have h2 : L = some 1 := hl1.mpr hrhs
                  rw [hfree] at h2
                  exact Option.noConfusion h2
            case release =>
              have hc0l : c0 = p0.length - 1 := h0.release_pos hg
              constructor
              · constructor
                · intro h2
                  exact Option.noConfusion h2
                · intro hrhs
                  exfalso
                  omega
              · constructor
                · intro h2
                  exact Option.noConfusion h2
                · intro hrhs
                  have h2 : L = some 1 := hl1.mpr hrhs
                  have h3 : L = some 0 := hl0.mpr ⟨by omega, by omega⟩
                  rw [h3] at h2
                  exact absurd (Option.some.inj h2) (by decide)
            all_goals {
              have hm := h0.mid_bounds hg (by decide) (by decide)
              have hL0 : L = some 0 := hl0.mpr ⟨by omega, by omega⟩
              rw [hL0]
              constructor
              · constructor
                · intro _
                  exact ⟨by omega, by omega⟩
                · intro _
                  rfl
              · constructor
                · intro h2
                  exact absurd (Option.some.inj h2) (by decide)
                · intro hrhs
                  have h2 : L = some 1 := hl1.mpr hrhs
                  rw [hL0] at h2
                  exact absurd (Option.some.inj h2) (by decide)
            }
          exact ⟨Nat.succ_le_of_lt hlt, hb1, hlkN.1, hlkN.2, hserN⟩
  · -- process 1 moves
    simp only [stepFn, progFor, pcFor] at hi
    simp at hi
    cases hg : p1[c1]? with
    | none => simp [hg] at hi
    | some a =>
        simp only [hg] at hi
        by_cases hcond : a = PAction.acquire ∧ L ≠ none
        · rw [if_pos hcond] at hi
          exact absurd hi (by simp)
        · rw [if_neg hcond] at hi
          obtain rfl := Option.some.inj hi
          have hlt : c1 < p1.length := (List.getElem?_eq_some.mp hg).1
          have hserN :
              (tr ++ [((1 : Fin 2), a)] =
                  procPrefix p0 0 c0 ++ procPrefix p1 1 (c1 + 1) ∧
                (1 ≤ c1 + 1 → c0 = p0.length)) ∨
              (tr ++ [((1 : Fin 2), a)] =
                  procPrefix p1 1 (c1 + 1) ++ procPrefix p0 0 c0 ∧
                (1 ≤ c0 → c1 + 1 = p1.length)) := by
            rcases hser with ⟨ht, himp⟩ | ⟨ht, himp⟩
            · by_cases hp1 : 1 ≤ c1
              · left
                refine ⟨?_, fun _ => himp hp1⟩
                simp [ht, procPrefix_succ p1 1 c1 a hg, List.append_assoc]
              · have hc1z : c1 = 0 := by omega
                have ha : a = PAction.acquire := by
                  have hz := h1.get_zero
                  rw [hc1z] at hg
                  exact Option.some.inj (hg.symm.trans hz)
                have hfree : L = none := by
                  by_contra hneq
                  exact hcond ⟨ha, hneq⟩
                have hc0cases : c0 = 0 ∨ c0 = p0.length := by
                  by_contra hboth
                  push_neg at hboth
                  have h2 : L = some 0 := hl0.mpr ⟨by omega, by omega⟩
                  rw [hfree] at h2
                  exact Option.noConfusion h2
                rcases hc0cases with hz0 | hfull
                · right
                  refine ⟨?_, fun hcc => absurd hcc (by omega)⟩
                  simp [ht, hz0, procPrefix_succ p1 1 c1 a hg, procPrefix_zero]
                · left
                  refine ⟨?_, fun _ => hfull⟩
                  simp [ht, procPrefix_succ p1 1 c1 a hg, List.append_assoc]
            · have hc0z : c0 = 0 := by
                by_contra hne
                have h2 := himp (by omega)
                omega
              right
              refine ⟨?_, fun hcc => absurd hcc (by omega)⟩
              simp [ht, hc0z, procPrefix_succ p1 1 c1 a hg, procPrefix_zero]
          have hlkN :
              ((match a with
                | PAction.acquire => some (1 : Fin 2)
                | PAction.release => none
                | _ => L) = some 0 ↔ (1 ≤ c0 ∧ c0 < p0.length)) ∧
              ((match a with
                | PAction.acquire => some (1 : Fin 2)
                | PAction.release => none
                | _ => L) = some 1 ↔ (1 ≤ c1 + 1 ∧ c1 + 1 < p1.length)) := by
            cases a
            case acquire =>
              have hc1z : c1 = 0 := h1.acquire_pos hg
              have hfree : L = none := by
                by_contra hneq
                exact hcond ⟨rfl, hneq⟩
              constructor
              · constructor
                · intro h2
                  exact absurd (Option.some.inj h2) (by decide)
                · intro hrhs
                  have h2 : L = some 0 := hl0.mpr hrhs
                  rw [hfree] at h2
                  exact Option.noConfusion h2
              · constructor
                · intro _
                  exact ⟨by omega, by omega⟩
                · intro _
                  rfl
            case release =>
              have hc1l : c1 = p1.length - 1 := h1.release_pos hg
              constructor
              · constructor
                · intro h2
                  exact Option.noConfusion h2
                · intro hrhs
                  have h2 : L = some 0 := hl0.mpr hrhs
                  have h3 : L = some 1 := hl1.mpr ⟨by omega, by omega⟩
                  rw [h3] at h2
                  exact absurd (Option.some.inj h2) (by decide)
              · constructor
                · intro h2
                  exact Option.noConfusion h2
                · intro hrhs
                  exfalso
                  omega
            all_goals {
              have hm := h1.mid_bounds hg (by decide) (by decide)
              have hL1 : L = some 1 := hl1.mpr ⟨by omega, by omega⟩
              rw [hL1]
              constructor
              · constructor
                · intro h2
                  exact absurd (Option.some.inj h2) (by decide)
                · intro hrhs
                  have h2 : L = some 0 := hl0.mpr hrhs
                  rw [hL1] at h2
                  exact absurd (Option.some.inj h2) (by decide)
              · constructor
                · intro _
                  exact ⟨by omega, by omega⟩
                · intro _
                  rfl
            }
          exact ⟨hb0, Nat.succ_le_of_lt hlt, hlkN.1, hlkN.2, hserN⟩

theorem cinv_reachable (p0 p1 : List PAction) (h0 : ProgShape p0)
    (h1 : ProgShape p1) {s : CState} (hr : Reachable p0 p1 s) :
    CInv p0 p1 s := by
  induction hr with
  | refl => exact cinv_init p0 p1
  | tail hab hbc ih => exact cinv_step p0 p1 h0 h1 ih hbc

/-- C8: two concurrently scheduled trackV2 requests sharing the lock key
have totally ordered side effects: in every reachable state of the
interleaving semantics, if process 0 acquired the lock first then every
operation of process 0 (through its directory update and unlock) occurs
in the global trace strictly before every operation of process 1, in
particular before the directory lookup of process 1. -/
theorem c8_total_order (st : Settings) (m0 m1 : Msg) (e0 e1 : Env)
    (h0 : e0.lockErr = none) (h1 : e1.lockErr = none) (s : CState)
    (hr : Reachable (progOf st m0 e0) (progOf st m1 e1) s)
    (hfirst : ∃ i j : Nat, i < j ∧ s.trace[i]? = some (0, PAction.acquire) ∧
      s.trace[j]? = some (1, PAction.acquire)) :
    ∀ (k l : Nat) (a b : PAction),
      s.trace[k]? = some (0, a) → s.trace[l]? = some (1, b) → k < l := by
  have hinv := cinv_reachable _ _ (progOf_shape st m0 e0 h0)
    (progOf_shape st m1 e1 h1) hr
  obtain ⟨-, -, -, -, hser | hser⟩ := hinv
  · obtain ⟨ht, -⟩ := hser
    intro k l a b hk hl
    rw [ht] at hk hl
    have hkA : k < (procPrefix (progOf st m0 e0) 0 s.pc0).length :=
      getElem?_append_tag_right (fun x hx => procPrefix_fst hx) (by decide) hk
    have hlA : (procPrefix (progOf st m0 e0) 0 s.pc0).length ≤ l :=
      getElem?_append_tag_left (fun x hx => procPrefix_fst hx) (by decide) hl
    omega
  · obtain ⟨ht, -⟩ := hser
    obtain ⟨i, j, hij, hi, hj⟩ := hfirst
    rw [ht] at hi hj
    have hiA : (procPrefix (progOf st m1 e1) 1 s.pc1).length ≤ i :=
      getElem?_append_tag_left (fun x hx => procPrefix_fst hx) (by decide) hi
    have hjA : j < (procPrefix (progOf st m1 e1) 1 s.pc1).length :=
      getElem?_append_tag_right (fun x hx => procPrefix_fst hx) (by decide) hj
    intro k l a b hk hl
    exfalso
    omega

/-- The concrete four-step schedule of the C8 witness is reachable. -/
theorem c8_reach :
    Reachable (progOf exSettings exTrack exEnvGet)
      (progOf exSettings exTrack exEnvGet) c8sFinal := by
  have s1 : SchedStep (progOf exSettings exTrack exEnvGet)
      (progOf exSettings exTrack exEnvGet) initState c8s1 := ⟨0, by decide⟩
  have s2 : SchedStep (progOf exSettings exTrack exEnvGet)
      (progOf exSettings exTrack exEnvGet) c8s1 c8s2 := ⟨0, by decide⟩
  have s3 : SchedStep (progOf exSettings exTrack exEnvGet)
      (progOf exSettings exTrack exEnvGet) c8s2 c8s3 := ⟨0, by decide⟩
  have s4 : SchedStep (progOf exSettings exTrack exEnvGet)
      (progOf exSettings exTrack exEnvGet) c8s3 c8sFinal := ⟨1, by decide⟩
  exact Relation.ReflTransGen.tail
    (Relation.ReflTransGen.tail
      (Relation.ReflTransGen.tail (Relation.ReflTransGen.single s1) s2) s3) s4

/-- C8 witness: on the concrete schedule, process 0 acquired first and the
ordering theorem applies, for instance to its acquire at index 0 and the
acquire of process 1 at index 3. -/
theorem c8_witness :
    c8sFinal.trace[0]? = some ((0 : Fin 2), PAction.acquire) ∧ (0 : Nat) < 3 :=
  ⟨rfl,
   c8_total_order exSettings exTrack exTrack exEnvGet exEnvGet rfl rfl
     c8sFinal c8_reach ⟨0, 3, by decide, by decide, by decide⟩
     0 3 PAction.acquire PAction.acquire (by decide) (by decide)⟩

end IntercomSpec
